import Mathlib

/-!
Verification of `notion_dedupe.py`: a shallow embedding of the script's
record projection (`extract_page_info`), duplicate grouping
(`find_duplicates`), paginated retrieval (`get_all_pages`), archival loop
and run controller (`main_run`), together with theorems about them.

Conventions of the embedding:
* Python dicts with known string keys become structures with `Option` fields
  (`none` models an absent key); the `properties` dict, whose keys are data,
  becomes an association list.
* Python string comparison (lexicographic by code point) is modelled by the
  executable `lexLt` on `List Char` (`Char.toNat` is the code point), and
  `str.strip()` by `pyStrip` (drop leading/trailing whitespace).
* Python's stable `sorted(..., key=..., reverse=True)` becomes
  `List.insertionSort` with the relation `pageGE a b := b.created_time ≤
  a.created_time` (as `pyStrLe`), which is a stable sort producing the same
  descending order with ties kept in input order.
* `defaultdict` insertion order becomes the explicit first-seen key list
  `firstSeenKeys`.
* Exceptions become `Except String`; the `while has_more` loop takes fuel.
-/

/-- Strict lexicographic order on char lists by code point, exactly Python's
string `<`. -/
def lexLt : List Char → List Char → Bool
  | [], [] => false
  | [], _ :: _ => true
  | _ :: _, [] => false
  | a :: as, b :: bs =>
    if a.toNat < b.toNat then true
    else if b.toNat < a.toNat then false
    else lexLt as bs

/-- Python's `a < b` on strings. -/
def pyStrLt (a b : String) : Bool :=
  lexLt a.data b.data

/-- Python's `a <= b` on strings: not `b < a`. -/
def pyStrLe (a b : String) : Bool :=
  !(pyStrLt b a)

/-- Python's `s.strip()`: drop leading and trailing whitespace. -/
def pyStrip (s : String) : String :=
  ⟨((s.data.dropWhile Char.isWhitespace).reverse.dropWhile Char.isWhitespace).reverse⟩

theorem lexLt_irrefl : ∀ x : List Char, lexLt x x = false
  | [] => rfl
  | a :: as => by simp [lexLt, lexLt_irrefl as]

theorem lexLt_nil_right : ∀ x : List Char, lexLt x [] = false
  | [] => rfl
  | _ :: _ => rfl

theorem lexLt_asymm :
    ∀ x y : List Char, lexLt x y = true → lexLt y x = false
  | [], [] => by simp [lexLt]
  | [], _ :: _ => fun _ => rfl
  | _ :: _, [] => by simp [lexLt]
  | a :: as, b :: bs => by
    intro h
    by_cases hab : a.toNat < b.toNat
    · have hba : ¬ b.toNat < a.toNat := by omega
      simp [lexLt, hab, hba]
    · by_cases hba : b.toNat < a.toNat
      · simp [lexLt, hab, hba] at h
      · simp [lexLt, hab, hba] at h ⊢
        exact lexLt_asymm as bs h

theorem lexLt_trans :
    ∀ x y z : List Char, lexLt x y = true → lexLt y z = true → lexLt x z = true
  | _, [], _ => by
    intro h1
    simp [lexLt_nil_right] at h1
  | x, b :: bs, [] => by
    intro _ h2
    simp [lexLt_nil_right] at h2
  | [], b :: bs, c :: cs => by
    intros
    rfl
  | a :: as, b :: bs, c :: cs => by
    intro h1 h2
    by_cases hab : a.toNat < b.toNat
    · by_cases hbc : b.toNat < c.toNat
      · simp [lexLt, show a.toNat < c.toNat from by omega]
      · by_cases hcb : c.toNat < b.toNat
        · simp [lexLt, hbc, hcb] at h2
        · simp [lexLt, show a.toNat < c.toNat from by omega]
    · by_cases hba : b.toNat < a.toNat
      · simp [lexLt, hab, hba] at h1
      · simp [lexLt, hab, hba] at h1
        by_cases hbc : b.toNat < c.toNat
        · simp [lexLt, show a.toNat < c.toNat from by omega]
        · by_cases hcb : c.toNat < b.toNat
          · simp [lexLt, hbc, hcb] at h2
          · simp [lexLt, hbc, hcb] at h2
            simp [lexLt, show ¬ a.toNat < c.toNat from by omega,
              show ¬ c.toNat < a.toNat from by omega]
            exact lexLt_trans as bs cs h1 h2

theorem lexLt_connex :
    ∀ x y : List Char, lexLt x y = false → lexLt y x = false → x = y
  | [], [] => by intros; rfl
  | [], _ :: _ => by intro h1; cases h1
  | _ :: _, [] => by intro _ h2; cases h2
  | a :: as, b :: bs => by
    intro h1 h2
    by_cases hab : a.toNat < b.toNat
    · simp [lexLt, hab] at h1
    · by_cases hba : b.toNat < a.toNat
      · simp [lexLt, hba] at h2
      · simp [lexLt, hab, hba] at h1 h2
        have hn : a.toNat = b.toNat := by omega
        have ha : a = b := Char.ext (UInt32.ext hn)
        rw [ha, lexLt_connex as bs h1 h2]

theorem lexLt_nil_left (x : List Char) (h : lexLt [] x = false) : x = [] := by
  cases x with
  | nil => rfl
  | cons a as => cases h

/-- One element of a Notion rich-text array: only `plain_text` is read. -/
structure RichText where
  plain_text : Option String
deriving DecidableEq, Repr

/-- A property value: the code reads `title` (for 「名称」) and `rich_text`
(for 「正文」); an absent key is `none`. -/
structure PropVal where
  title : Option (List RichText)
  rich_text : Option (List RichText)
deriving DecidableEq, Repr

/-- A raw page as returned by the store. `id`, `properties`, `created_time`
and `url` model the dict keys the code reads; `none` models absence. -/
structure RawPage where
  id : Option String
  properties : Option (List (String × PropVal))
  created_time : Option String
  url : Option String
deriving DecidableEq, Repr

/-- The projected record built by `extract_page_info`. -/
structure PageInfo where
  id : String
  title : String
  content : String
  created_time : String
  url : String
deriving DecidableEq, Repr

/-- Python's `props.get(k, {})`: association-list lookup with empty-dict default. -/
def getProp (props : List (String × PropVal)) (k : String) : PropVal :=
  match props.find? (fun kv => kv.1 == k) with
  | some kv => kv.2
  | none => ⟨none, none⟩

/-- Python's `"".join(t.get("plain_text", "") for t in ts)`. -/
def joinPlainText (ts : List RichText) : String :=
  ts.foldl (fun acc t => acc ++ t.plain_text.getD "") ""

/-- The projector `extract_page_info(page)`. `page["id"]` raises `KeyError` when absent,
modelled as `Except.error`; every other field degrades to `""`. The
truthiness tests `if title_prop.get("title"):` / `if
content_prop.get("rich_text"):` succeed only on a present, non-empty list. -/
def extract_page_info (page : RawPage) : Except String PageInfo :=
  match page.id with
  | none => Except.error "KeyError: id"
  | some pid =>
    let props := page.properties.getD []
    let title_prop := getProp props "名称"
    let title :=
      match title_prop.title with
      | some (t :: ts) => joinPlainText (t :: ts)
      | _ => ""
    let content_prop := getProp props "正文"
    let content :=
      match content_prop.rich_text with
      | some (t :: ts) => joinPlainText (t :: ts)
      | _ => ""
    Except.ok
      { id := pid
        title := pyStrip title
        content := pyStrip content
        created_time := page.created_time.getD ""
        url := page.url.getD "" }

/-- The comparison under `sorted(page_list, key=lambda x: x["created_time"],
reverse=True)`: `a` may come before `b` iff `b`'s timestamp is ≤ `a`'s. -/
def pageGE (a b : PageInfo) : Prop :=
  pyStrLe b.created_time a.created_time = true

instance : DecidableRel pageGE := fun a b =>
  inferInstanceAs (Decidable (pyStrLe b.created_time a.created_time = true))

theorem pageGE_iff (a b : PageInfo) :
    pageGE a b ↔ lexLt a.created_time.data b.created_time.data = false := by
  simp [pageGE, pyStrLe, pyStrLt]

instance : IsTotal PageInfo pageGE := by
  constructor
  intro a b
  rw [pageGE_iff, pageGE_iff]
  cases h : lexLt a.created_time.data b.created_time.data with
  | false => exact Or.inl rfl
  | true => exact Or.inr (lexLt_asymm _ _ h)

instance : IsTrans PageInfo pageGE := by
  constructor
  intro a b c hab hbc
  rw [pageGE_iff] at hab hbc ⊢
  by_contra hac
  rw [Bool.not_eq_false] at hac
  by_cases hcb : lexLt c.created_time.data b.created_time.data = true
  · exact absurd (lexLt_trans _ _ _ hac hcb) (by simp [hab])
  · rw [Bool.not_eq_true] at hcb
    have hbceq := lexLt_connex _ _ hbc hcb
    rw [← hbceq] at hac
    simp [hac] at hab

/-- The stable descending sort of a duplicate group by `created_time`. -/
def sortPagesDesc (l : List PageInfo) : List PageInfo :=
  List.insertionSort pageGE l

/-- The keys of `by_title` in insertion (first-seen) order: each non-empty
title, at the position of its first occurrence. -/
def firstSeenKeys : List PageInfo → List String
  | [] => []
  | p :: rest =>
    if p.title = "" then firstSeenKeys rest
    else p.title :: (firstSeenKeys rest).filter (fun t => t ≠ p.title)

/-- The group `by_title[t]`: the pages with title `t`, in input order. -/
def groupOf (pages : List PageInfo) (t : String) : List PageInfo :=
  pages.filter (fun p => p.title = t)

/-- One entry of the `duplicates` dict: `{"keep": ..., "remove": ...}`. -/
structure DupGroup where
  key : String
  keep : PageInfo
  remove : List PageInfo
deriving DecidableEq, Repr

/-- The loop body of `find_duplicates` for one title `t`: when `by_title[t]`
has more than one page, sort it by `created_time` descending and split it
into `keep` (head) and `remove` (tail). -/
def dupEntry (pages : List PageInfo) (t : String) : Option DupGroup :=
  let page_list := groupOf pages t
  if 1 < page_list.length then
    match sortPagesDesc page_list with
    | [] => none
    | k :: rest => some ⟨t, k, rest⟩
  else none

/-- The grouper `find_duplicates(pages)`: one `duplicates` entry per first-seen
non-empty title with more than one page. -/
def find_duplicates (pages : List PageInfo) : List DupGroup :=
  (firstSeenKeys pages).filterMap (dupEntry pages)

/-- The spec's three-record scenario: identical key, `createdAt` values
`2024-01-01`, `2024-03-15`, `2024-02-10` in that input order. -/
def pJan : PageInfo :=
  ⟨"id-jan", "Groceries", "", "2024-01-01", ""⟩

def pMar : PageInfo :=
  ⟨"id-mar", "Groceries", "", "2024-03-15", ""⟩

def pFeb : PageInfo :=
  ⟨"id-feb", "Groceries", "", "2024-02-10", ""⟩

def scenarioPages : List PageInfo :=
  [pJan, pMar, pFeb]

/-- One response of `query_database`: `results`, `has_more`, `next_cursor`. -/
structure QueryResponse where
  results : List RawPage
  has_more : Bool
  next_cursor : Option String
deriving DecidableEq, Repr

/-- The remote store as seen through `query_database database_id
start_cursor`: the database id is fixed, so a store is a function from the
start cursor to a response; `Except.error` models a `raise_for_status`
exception. -/
def Store : Type :=
  Option String → Except String QueryResponse

/-- The `while has_more` loop body of `get_all_pages`, with fuel for
termination. `acc` is `all_pages`; each iteration appends
`result.get("results", [])`, reads `has_more` and threads `next_cursor`. -/
def get_all_pages_loop (store : Store) :
    Nat → Option String → List RawPage → Except String (List RawPage)
  | 0, _, _ => Except.error "fuel exhausted"
  | Nat.succ n, cur, acc =>
    match store cur with
    | Except.error e => Except.error e
    | Except.ok r =>
      if r.has_more then get_all_pages_loop store n r.next_cursor (acc ++ r.results)
      else Except.ok (acc ++ r.results)

/-- The fetch `get_all_pages(database_id)`: run the loop from cursor `None` and an
empty accumulator. -/
def get_all_pages (store : Store) (fuel : Nat) : Except String (List RawPage) :=
  get_all_pages_loop store fuel none []

/-- Per-record report of the archival loop: page id and whether
`archive_page` succeeded. -/
structure RetirementOutcome where
  pid : String
  success : Bool
deriving DecidableEq, Repr

/-- The call `archive_page(page_id)`: the PATCH call, failing exactly on the ids in
`fails` (`raise_for_status` modelled as `Except.error`). -/
def archive_page (fails : String → Bool) (pid : String) : Except String String :=
  if fails pid then Except.error "HTTPError" else Except.ok pid

/-- The inner loop `for page in dup_info["remove"]`: one `archive_page` call
per page inside `try/except Exception`, so a failure yields a failed outcome
and the loop continues. -/
def retire_remove (fails : String → Bool) : List PageInfo → List RetirementOutcome
  | [] => []
  | p :: ps =>
    match archive_page fails p.id with
    | Except.ok _ => ⟨p.id, true⟩ :: retire_remove fails ps
    | Except.error _ => ⟨p.id, false⟩ :: retire_remove fails ps

/-- The outer loop `for title, dup_info in duplicates.items()`. -/
def retire_all (fails : String → Bool) : List DupGroup → List RetirementOutcome
  | [] => []
  | g :: gs => retire_remove fails g.remove ++ retire_all fails gs

/-- The controller `main()` after argument parsing: fetch all pages (aborting on a fetch
error), project them (aborting on a missing id), find duplicates, then
return without archiving when there are no duplicates, when `--dry-run` is
set, or when the interactive confirmation is declined; otherwise run the
archival loop. `confirm_yes` models `input(...) == "y"`. -/
def main_run (store : Store) (fuel : Nat) (dry_run auto confirm_yes : Bool)
    (fails : String → Bool) : Except String (List RetirementOutcome) :=
  match get_all_pages store fuel with
  | Except.error e => Except.error e
  | Except.ok all_pages =>
    match all_pages.mapM extract_page_info with
    | Except.error e => Except.error e
    | Except.ok pages_info =>
      let duplicates := find_duplicates pages_info
      if duplicates.isEmpty then Except.ok []
      else if dry_run then Except.ok []
      else if !auto && !confirm_yes then Except.ok []
      else Except.ok (retire_all fails duplicates)

/-- The archival (mutation) calls a finished run has issued: one per
retirement outcome; an aborted run has issued none. -/
def archiveCallsOf (r : Except String (List RetirementOutcome)) : List String :=
  match r with
  | Except.ok outs => outs.map (fun o => o.pid)
  | Except.error _ => []

/-- A terminating conversation with the store: the list of cursors the loop
requests, each response saying `has_more` and handing the next cursor on,
the last response saying `has_more = false`. -/
inductive Chain (store : Store) : Option String → List (Option String) → Prop
  | last (c : Option String) (r : QueryResponse) :
      store c = Except.ok r → r.has_more = false → Chain store c [c]
  | more (c : Option String) (r : QueryResponse) (cs : List (Option String)) :
      store c = Except.ok r → r.has_more = true →
      Chain store r.next_cursor cs → Chain store c (c :: cs)

/-- The page of results the store serves at cursor `c`. -/
def resultsAt (store : Store) (c : Option String) : List RawPage :=
  match store c with
  | Except.ok r => r.results
  | Except.error _ => []

theorem sortPagesDesc_perm (l : List PageInfo) : List.Perm (sortPagesDesc l) l :=
  List.perm_insertionSort pageGE l

theorem sortPagesDesc_sorted (l : List PageInfo) :
    List.Sorted pageGE (sortPagesDesc l) :=
  List.sorted_insertionSort pageGE l

theorem sortPagesDesc_length (l : List PageInfo) :
    (sortPagesDesc l).length = l.length :=
  (sortPagesDesc_perm l).length_eq

/-- Stability of the descending sort: elements with any fixed timestamp stay
in their original relative order (inserting `a` never passes an element with
`a`'s own timestamp). -/
theorem filter_created_orderedInsert (c : String) (a : PageInfo) :
    ∀ l : List PageInfo,
      (List.orderedInsert pageGE a l).filter (fun p => p.created_time = c) =
        ((a :: l).filter (fun p => p.created_time = c))
  | [] => rfl
  | b :: l => by
    by_cases hab : pageGE a b
    · rw [List.orderedInsert, if_pos hab]
    · rw [List.orderedInsert, if_neg hab]
      have hlt : lexLt a.created_time.data b.created_time.data = true := by
        have := (pageGE_iff a b).not.mp hab
        simpa using this
      by_cases hb : b.created_time = c
      · by_cases ha : a.created_time = c
        · exfalso
          rw [ha, hb] at hlt
          rw [lexLt_irrefl] at hlt
          cases hlt
        · simp [List.filter_cons, ha, hb, filter_created_orderedInsert c a l]
      · by_cases ha : a.created_time = c
        · simp [List.filter_cons, ha, hb, filter_created_orderedInsert c a l]
        · simp [List.filter_cons, ha, hb, filter_created_orderedInsert c a l]

theorem filter_created_sortPagesDesc (c : String) :
    ∀ l : List PageInfo,
      (sortPagesDesc l).filter (fun p => p.created_time = c) =
        l.filter (fun p => p.created_time = c)
  | [] => rfl
  | a :: l => by
    show (List.orderedInsert pageGE a (List.insertionSort pageGE l)).filter _ = _
    rw [filter_created_orderedInsert c a (List.insertionSort pageGE l)]
    simp only [List.filter_cons]
    rw [show (List.insertionSort pageGE l).filter (fun p => decide (p.created_time = c)) =
      l.filter (fun p => decide (p.created_time = c)) from filter_created_sortPagesDesc c l]

/-- Unfolding of a `duplicates` entry for a title whose group is plural. -/
theorem dupEntry_eq_some (pages : List PageInfo) (t : String)
    (h : 1 < (groupOf pages t).length) :
    ∃ k rest, sortPagesDesc (groupOf pages t) = k :: rest ∧
      dupEntry pages t = some ⟨t, k, rest⟩ := by
  cases hs : sortPagesDesc (groupOf pages t) with
  | nil =>
    exfalso
    have := sortPagesDesc_length (groupOf pages t)
    rw [hs, List.length_nil] at this
    omega
  | cons k rest =>
    refine ⟨k, rest, rfl, ?_⟩
    simp [dupEntry, h, hs]

theorem dupEntry_eq_none (pages : List PageInfo) (t : String)
    (h : ¬ 1 < (groupOf pages t).length) :
    dupEntry pages t = none := by
  simp [dupEntry, h]

theorem ne_empty_of_mem_firstSeenKeys :
    ∀ (pages : List PageInfo) (t : String), t ∈ firstSeenKeys pages → t ≠ ""
  | [], t, h => by cases h
  | p :: rest, t, h => by
    rw [firstSeenKeys] at h
    by_cases hp : p.title = ""
    · rw [if_pos hp] at h
      exact ne_empty_of_mem_firstSeenKeys rest t h
    · rw [if_neg hp] at h
      rcases List.mem_cons.mp h with h1 | h2
      · rw [h1]
        exact hp
      · exact ne_empty_of_mem_firstSeenKeys rest t (List.mem_filter.mp h2).1

theorem mem_firstSeenKeys :
    ∀ (pages : List PageInfo) (t : String),
      t ∈ firstSeenKeys pages ↔ (t ≠ "" ∧ ∃ p ∈ pages, p.title = t)
  | [], t => by simp [firstSeenKeys]
  | p :: rest, t => by
    rw [firstSeenKeys]
    by_cases hp : p.title = ""
    · rw [if_pos hp, mem_firstSeenKeys rest t]
      constructor
      · rintro ⟨hne, q, hq, hqt⟩
        exact ⟨hne, q, List.mem_cons_of_mem p hq, hqt⟩
      · rintro ⟨hne, q, hq, hqt⟩
        rcases List.mem_cons.mp hq with rfl | hq'
        · exact absurd (hqt.symm.trans hp) hne
        · exact ⟨hne, q, hq', hqt⟩
    · rw [if_neg hp]
      constructor
      · intro h
        rcases List.mem_cons.mp h with rfl | h2
        · exact ⟨hp, p, List.mem_cons_self p rest, rfl⟩
        · obtain ⟨h3, _⟩ := List.mem_filter.mp h2
          obtain ⟨hne, q, hq, hqt⟩ := (mem_firstSeenKeys rest t).mp h3
          exact ⟨hne, q, List.mem_cons_of_mem p hq, hqt⟩
      · rintro ⟨hne, q, hq, hqt⟩
        by_cases hteq : t = p.title
        · exact hteq ▸ List.mem_cons_self _ _
        · rcases List.mem_cons.mp hq with rfl | hq'
          · exact absurd hqt.symm hteq
          · refine List.mem_cons_of_mem _ (List.mem_filter.mpr ?_)
            refine ⟨(mem_firstSeenKeys rest t).mpr ⟨hne, q, hq', hqt⟩, ?_⟩
            simpa using hteq

theorem nodup_firstSeenKeys : ∀ pages : List PageInfo, (firstSeenKeys pages).Nodup
  | [] => List.nodup_nil
  | p :: rest => by
    rw [firstSeenKeys]
    by_cases hp : p.title = ""
    · rw [if_pos hp]
      exact nodup_firstSeenKeys rest
    · rw [if_neg hp]
      refine List.Nodup.cons ?_ ((nodup_firstSeenKeys rest).filter _)
      intro hmem
      have := (List.mem_filter.mp hmem).2
      simp at this

/-- The position of the first page bearing title `t`. -/
def firstIdx (pages : List PageInfo) (t : String) : Nat :=
  pages.findIdx (fun p => p.title == t)

/-- The first-seen key list is strictly ordered by first position of the
title in the input. -/
theorem pairwise_firstIdx :
    ∀ pages : List PageInfo,
      (firstSeenKeys pages).Pairwise (fun a b => firstIdx pages a < firstIdx pages b)
  | [] => List.Pairwise.nil
  | p :: rest => by
    have step : ∀ t : String, t ≠ p.title →
        firstIdx (p :: rest) t = firstIdx rest t + 1 := by
      intro t ht
      rw [firstIdx, List.findIdx_cons]
      have : (p.title == t) = false := by
        simpa using fun h => ht h.symm
      rw [this]
      rfl
    rw [firstSeenKeys]
    by_cases hp : p.title = ""
    · rw [if_pos hp]
      refine List.Pairwise.imp_of_mem ?_ (pairwise_firstIdx rest)
      intro a b ha hb hab
      have hane : a ≠ p.title := by
        rw [hp]
        exact ne_empty_of_mem_firstSeenKeys rest a ha
      have hbne : b ≠ p.title := by
        rw [hp]
        exact ne_empty_of_mem_firstSeenKeys rest b hb
      rw [step a hane, step b hbne]
      omega
    · rw [if_neg hp]
      refine List.Pairwise.cons ?_ ?_
      · intro b hb
        obtain ⟨_, hbne⟩ := List.mem_filter.mp hb
        have hbne' : b ≠ p.title := by simpa using hbne
        have hzero : firstIdx (p :: rest) p.title = 0 := by
          rw [firstIdx, List.findIdx_cons]
          have : (p.title == p.title) = true := by simp
          rw [this]
          rfl
        rw [hzero, step b hbne']
        omega
      · refine List.Pairwise.imp_of_mem ?_ ((pairwise_firstIdx rest).filter _)
        intro a b ha hb hab
        have hane : a ≠ p.title := by simpa using (List.mem_filter.mp ha).2
        have hbne : b ≠ p.title := by simpa using (List.mem_filter.mp hb).2
        rw [step a hane, step b hbne]
        omega

/-- The keys of the output groups, in order: the plural first-seen keys. -/
theorem find_duplicates_keys (pages : List PageInfo) :
    (find_duplicates pages).map (fun g => g.key) =
      (firstSeenKeys pages).filter (fun t => 1 < (groupOf pages t).length) := by
  rw [find_duplicates]
  induction firstSeenKeys pages with
  | nil => rfl
  | cons t K ih =>
    rw [List.filterMap_cons, List.filter_cons]
    by_cases h : 1 < (groupOf pages t).length
    · obtain ⟨k, rest, _, he⟩ := dupEntry_eq_some pages t h
      rw [he]
      simp only [List.map_cons, ih]
      simp [h]
    · rw [dupEntry_eq_none pages t h]
      simp only [ih]
      simp [h]

theorem count_filter_eq {α : Type} [DecidableEq α] (p : α → Bool) (a : α) :
    ∀ l : List α, (l.filter p).count a = if p a then l.count a else 0
  | [] => by simp
  | b :: l => by
    rw [List.filter_cons]
    by_cases hb : p b = true
    · rw [if_pos hb]
      by_cases hab : b = a
      · subst hab
        simp [List.count_cons, count_filter_eq p b l, hb]
      · simp [List.count_cons, hab, count_filter_eq p a l]
    · rw [if_neg hb]
      by_cases hab : b = a
      · subst hab
        simp only [Bool.not_eq_true] at hb
        simp [List.count_cons, count_filter_eq p b l, hb]
      · simp [List.count_cons, hab, count_filter_eq p a l]

theorem count_groupOf (pages : List PageInfo) (t : String) (x : PageInfo) :
    (groupOf pages t).count x =
      if x.title = t then pages.count x else 0 := by
  rw [groupOf, count_filter_eq]
  by_cases h : x.title = t <;> simp [h]

/-- Membership in `find_duplicates` determines a group completely: its key is
a first-seen plural title and `keep :: remove` is the sorted group. -/
theorem mem_find_duplicates (pages : List PageInfo) (g : DupGroup)
    (hg : g ∈ find_duplicates pages) :
    g.key ∈ firstSeenKeys pages ∧ 1 < (groupOf pages g.key).length ∧
      sortPagesDesc (groupOf pages g.key) = g.keep :: g.remove := by
  rw [find_duplicates, List.mem_filterMap] at hg
  obtain ⟨t, ht, hf⟩ := hg
  by_cases h : 1 < (groupOf pages t).length
  · obtain ⟨k, rest, hs, he⟩ := dupEntry_eq_some pages t h
    rw [he] at hf
    cases hf
    exact ⟨ht, h, hs⟩
  · rw [dupEntry_eq_none pages t h] at hf
    cases hf

theorem pageGE_refl (a : PageInfo) : pageGE a a := by
  rw [pageGE_iff]
  exact lexLt_irrefl _

/-- The kept record's timestamp dominates the whole group. -/
theorem keep_ge_of_mem_group (pages : List PageInfo) (g : DupGroup)
    (hg : g ∈ find_duplicates pages) :
    ∀ q ∈ groupOf pages g.key, pageGE g.keep q := by
  obtain ⟨_, _, hs⟩ := mem_find_duplicates pages g hg
  intro q hq
  have hqS : q ∈ sortPagesDesc (groupOf pages g.key) :=
    (sortPagesDesc_perm _).mem_iff.mpr hq
  rw [hs] at hqS
  rcases List.mem_cons.mp hqS with rfl | hqr
  · exact pageGE_refl _
  · have hsorted := sortPagesDesc_sorted (groupOf pages g.key)
    rw [hs] at hsorted
    exact (List.sorted_cons.mp hsorted).1 q hqr

/-- Count of a page in the flattened output over a duplicate-free key list. -/
theorem count_flatMap_dupEntry (pages : List PageInfo) (x : PageInfo) :
    ∀ K : List String, K.Nodup →
      (((K.filterMap (dupEntry pages)).flatMap (fun g => g.keep :: g.remove)).count x) =
        if x.title ∈ K ∧ 1 < (groupOf pages x.title).length then pages.count x else 0
  | [], _ => by simp
  | t :: K, hnd => by
    obtain ⟨htK, hK⟩ := List.nodup_cons.mp hnd
    rw [List.filterMap_cons]
    by_cases h : 1 < (groupOf pages t).length
    · obtain ⟨k, rest, hs, he⟩ := dupEntry_eq_some pages t h
      rw [he, List.flatMap_cons, List.count_append]
      have hcount1 : (List.count x (k :: rest)) =
          if x.title = t then pages.count x else 0 := by
        rw [← hs, (sortPagesDesc_perm (groupOf pages t)).count_eq,
          count_groupOf]
      rw [count_flatMap_dupEntry pages x K hK]
      by_cases hx : x.title = t
      · have hxK : x.title ∉ K := by
          rw [hx]
          exact htK
        simp [hcount1, hx, hxK, h]
        exact fun hmem => absurd hmem htK
      · have hmem : (x.title ∈ t :: K) ↔ x.title ∈ K := by
          simp [List.mem_cons, hx]
        simp only [hcount1, if_neg hx, hmem]
        omega
    · rw [dupEntry_eq_none pages t h]
      rw [count_flatMap_dupEntry pages x K hK]
      by_cases hx : x.title = t
      · have hxK : x.title ∉ K := by
          rw [hx]
          exact htK
        have hbig : ¬ 1 < (groupOf pages x.title).length := by
          rw [hx]
          exact h
        simp [hxK, hbig]
      · have hmem : (x.title ∈ t :: K) ↔ x.title ∈ K := by
          simp [List.mem_cons, hx]
        simp only [hmem]

/-- Running the pagination loop along a terminating response chain collects
the concatenation of all pages, in order. -/
theorem get_all_pages_loop_chain (store : Store) (c : Option String)
    (cs : List (Option String)) (hchain : Chain store c cs) :
    ∀ fuel : Nat, cs.length ≤ fuel → ∀ acc,
      get_all_pages_loop store fuel c acc =
        Except.ok (acc ++ cs.flatMap (resultsAt store)) := by
  induction hchain with
  | last c r hok hmore =>
    intro fuel hf acc
    cases fuel with
    | zero => simp at hf
    | succ n =>
      simp [get_all_pages_loop, hok, hmore, resultsAt]
  | more c r cs hok hmore hchain ih =>
    intro fuel hf acc
    cases fuel with
    | zero => simp at hf
    | succ n =>
      have hf' : cs.length ≤ n := by
        simp at hf
        omega
      simp only [get_all_pages_loop, hok, hmore, if_true]
      rw [ih n hf' (acc ++ r.results), List.flatMap_cons]
      have : resultsAt store c = r.results := by
        simp [resultsAt, hok]
      rw [this, List.append_assoc]

theorem retire_remove_pids (fails : String → Bool) :
    ∀ ps : List PageInfo,
      (retire_remove fails ps).map (fun o => o.pid) = ps.map (fun p => p.id)
  | [] => rfl
  | p :: ps => by
    by_cases hf : fails p.id
    · simp [retire_remove, archive_page, hf, retire_remove_pids fails ps]
    · simp [retire_remove, archive_page, hf, retire_remove_pids fails ps]

theorem retire_all_pids (fails : String → Bool) :
    ∀ gs : List DupGroup,
      (retire_all fails gs).map (fun o => o.pid) =
        (gs.flatMap (fun g => g.remove)).map (fun p => p.id)
  | [] => rfl
  | g :: gs => by
    simp [retire_all, List.flatMap_cons, retire_remove_pids fails g.remove,
      retire_all_pids fails gs]

theorem pyStrLe_empty (s : String) (h : pyStrLe s "" = true) : s = "" := by
  simp only [pyStrLe, pyStrLt, Bool.not_eq_true'] at h
  have hd : s.data = [] := lexLt_nil_left _ h
  cases s
  subst hd
  rfl

/-- A single record with a non-empty title, for exercising the singleton
behaviour of the grouper. -/
def pSolo : PageInfo :=
  ⟨"id-solo", "Reading list", "", "2024-01-01", ""⟩

/-- C1 counterexample: on the spec's own three-record scenario the code
returns `remove` sorted by `createdAt` descending — `[Feb, Jan]` — not in
source order `[Jan, Feb]` as the claim states. -/
theorem C1_counterexample :
    find_duplicates scenarioPages = [⟨"Groceries", pMar, [pFeb, pJan]⟩] ∧
    (find_duplicates scenarioPages).map (fun g => g.remove) ≠ [[pJan, pFeb]] := by
  decide

/-- C1 (amended): within each group, `remove` is the remaining records in
descending `createdAt` order (not source order); records with equal
`createdAt` keep their relative source order (for each timestamp `c`, the
`c`-timestamped part of `remove` is a subsequence of the input). -/
theorem C1_remove_order (pages : List PageInfo) (g : DupGroup)
    (hg : g ∈ find_duplicates pages) :
    g.remove.Pairwise (fun a b => pyStrLe b.created_time a.created_time = true) ∧
    ∀ c : String,
      List.Sublist (g.remove.filter (fun p => p.created_time = c)) pages := by
  obtain ⟨_, _, hs⟩ := mem_find_duplicates pages g hg
  constructor
  · have hsorted := sortPagesDesc_sorted (groupOf pages g.key)
    rw [hs] at hsorted
    exact (List.sorted_cons.mp hsorted).2
  · intro c
    have h1 : List.Sublist (g.remove.filter (fun p => p.created_time = c))
        ((g.keep :: g.remove).filter (fun p => p.created_time = c)) :=
      List.Sublist.filter _ (List.sublist_cons_self g.keep g.remove)
    rw [← hs, filter_created_sortPagesDesc] at h1
    exact h1.trans ((List.filter_sublist _).trans (List.filter_sublist _))

/-- C1 witness: the amended statement, instantiated on the scenario group. -/
theorem C1_remove_order_witness :
    (⟨"Groceries", pMar, [pFeb, pJan]⟩ : DupGroup) ∈ find_duplicates scenarioPages ∧
    (([pFeb, pJan] : List PageInfo).Pairwise
        (fun a b => pyStrLe b.created_time a.created_time = true) ∧
      ∀ c : String,
        List.Sublist (([pFeb, pJan] : List PageInfo).filter
          (fun p => p.created_time = c)) scenarioPages) :=
  ⟨by decide,
   C1_remove_order scenarioPages ⟨"Groceries", pMar, [pFeb, pJan]⟩ (by decide)⟩

/-- C2 counterexample: a lone record with a non-empty key yields zero
groups, so it appears in no group's keep-or-remove — the output does not
partition all non-empty-key records. -/
theorem C2_counterexample :
    pSolo.title ≠ "" ∧ find_duplicates [pSolo] = [] ∧
    ¬ ∃ g ∈ find_duplicates [pSolo], (g.keep = pSolo ∨ pSolo ∈ g.remove) := by
  refine ⟨by decide, by decide, ?_⟩
  rintro ⟨g, hg, _⟩
  rw [show find_duplicates [pSolo] = [] from by decide] at hg
  cases hg

/-- C2 (amended): the output groups partition exactly the records whose
non-empty key is shared by at least two records: flattening every group's
keep-and-remove is a permutation of that sublist of the input; empty-key
and singleton-key records appear in no group. -/
theorem C2_partition (pages : List PageInfo) :
    List.Perm ((find_duplicates pages).flatMap (fun g => g.keep :: g.remove))
      (pages.filter (fun p => p.title ≠ "" ∧ 1 < (groupOf pages p.title).length)) := by
  rw [List.perm_iff_count]
  intro x
  rw [find_duplicates, count_flatMap_dupEntry pages x _ (nodup_firstSeenKeys pages),
    count_filter_eq]
  rcases Nat.eq_zero_or_pos (pages.count x) with h0 | hpos
  · rw [h0]
    simp
  · have hxmem : x ∈ pages := List.count_pos_iff.mp hpos
    have hfsk : x.title ∈ firstSeenKeys pages ↔ x.title ≠ "" := by
      rw [mem_firstSeenKeys]
      exact ⟨fun h => h.1, fun h => ⟨h, x, hxmem, rfl⟩⟩
    by_cases hne : x.title = ""
    · have hnot : x.title ∉ firstSeenKeys pages := fun hmem => (hfsk.mp hmem) hne
      rw [hne] at hnot
      rw [hne]
      simp [hnot]
    · have hmem' : x.title ∈ firstSeenKeys pages := hfsk.mpr hne
      by_cases hbig : 1 < (groupOf pages x.title).length
      · simp [hmem', hbig, hne]
      · simp [hbig]

/-- C3 counterexample: a raw record with no id field makes the projector
raise (`page["id"]` is a `KeyError`), so the projector is not total and not
every missing field degrades to a default. -/
theorem C3_counterexample :
    extract_page_info ⟨none, none, none, none⟩ = Except.error "KeyError: id" := by
  rfl

/-- C3 (amended): the projector is total on every raw record that carries
an id; every other missing field degrades to an empty-string default rather
than erroring. -/
theorem C3_total_given_id (page : RawPage) (pid : String)
    (h : page.id = some pid) :
    ∃ info : PageInfo, extract_page_info page = Except.ok info ∧ info.id = pid := by
  obtain ⟨i, props, ct, u⟩ := page
  obtain rfl : i = some pid := h
  exact ⟨_, rfl, rfl⟩

/-- C3 witness: the amended statement on a concrete record with only an id. -/
theorem C3_total_given_id_witness :
    (⟨some "w1", none, none, none⟩ : RawPage).id = some "w1" ∧
    ∃ info : PageInfo,
      extract_page_info ⟨some "w1", none, none, none⟩ = Except.ok info ∧
        info.id = "w1" :=
  ⟨rfl, C3_total_given_id ⟨some "w1", none, none, none⟩ "w1" rfl⟩

/-- C4: the kept record's `createdAt` is lexicographically greatest in its
group (so it dominates every removed record), and among records tying for
the greatest `createdAt` the first-seen one in the input is kept. -/
theorem C4_keep_selection (pages : List PageInfo) (g : DupGroup)
    (hg : g ∈ find_duplicates pages) :
    (∀ r ∈ groupOf pages g.key,
        pyStrLe r.created_time g.keep.created_time = true) ∧
    (∀ r ∈ g.remove, pyStrLe r.created_time g.keep.created_time = true) ∧
    ((groupOf pages g.key).filter
        (fun p => p.created_time = g.keep.created_time)).head? = some g.keep := by
  obtain ⟨_, _, hs⟩ := mem_find_duplicates pages g hg
  have hmax := keep_ge_of_mem_group pages g hg
  refine ⟨fun r hr => hmax r hr, fun r hr => ?_, ?_⟩
  · refine hmax r ?_
    have : r ∈ g.keep :: g.remove := List.mem_cons_of_mem _ hr
    rw [← hs] at this
    exact (sortPagesDesc_perm _).mem_iff.mp this
  · have hf := filter_created_sortPagesDesc g.keep.created_time (groupOf pages g.key)
    rw [hs] at hf
    rw [← hf, List.filter_cons]
    simp

/-- C4 witness: the keep-selection property on the scenario group. -/
theorem C4_keep_selection_witness :
    (∀ r ∈ groupOf scenarioPages "Groceries",
        pyStrLe r.created_time pMar.created_time = true) ∧
    (∀ r ∈ ([pFeb, pJan] : List PageInfo),
        pyStrLe r.created_time pMar.created_time = true) ∧
    ((groupOf scenarioPages "Groceries").filter
        (fun p => p.created_time = pMar.created_time)).head? = some pMar :=
  C4_keep_selection scenarioPages ⟨"Groceries", pMar, [pFeb, pJan]⟩ (by decide)

/-- C5: the groups are yielded in the order their keys were first
encountered in the input: the output key sequence is strictly increasing in
first-occurrence position. -/
theorem C5_output_order (pages : List PageInfo) :
    ((find_duplicates pages).map (fun g => g.key)).Pairwise
      (fun a b => firstIdx pages a < firstIdx pages b) := by
  rw [find_duplicates_keys]
  exact (pairwise_firstIdx pages).filter _

/-- C6: the archival loop attempts every scheduled record, in schedule
order, whatever subset of archival calls fails — the attempted ids equal
the flattened remove schedule and do not depend on the failure set. -/
theorem C6_fault_isolation (dups : List DupGroup) (fails fails' : String → Bool) :
    (retire_all fails dups).map (fun o => o.pid) =
      (dups.flatMap (fun g => g.remove)).map (fun p => p.id) ∧
    (retire_all fails dups).map (fun o => o.pid) =
      (retire_all fails' dups).map (fun o => o.pid) := by
  refine ⟨retire_all_pids fails dups, ?_⟩
  rw [retire_all_pids fails dups, retire_all_pids fails' dups]

/-- C7: with `--dry-run` set, the run issues no archival call, for every
store, duplicate set (including the empty one) and confirmation input. -/
theorem C7_preview_no_mutation (store : Store) (fuel : Nat)
    (auto confirm_yes : Bool) (fails : String → Bool) :
    archiveCallsOf (main_run store fuel true auto confirm_yes fails) = [] := by
  simp only [main_run]
  split
  · rfl
  · split
    · rfl
    · split
      · rfl
      · rfl

/-- C8: the source keeps requesting while has-more is true, threading each
response's cursor into the next request, stops when has-more is false and
returns the concatenation of all result pages; and a failed page request
aborts the whole run with the fetch error. -/
theorem C8_pagination :
    (∀ (store : Store) (fuel : Nat) (cs : List (Option String)),
        Chain store none cs → cs.length ≤ fuel →
          get_all_pages store fuel = Except.ok (cs.flatMap (resultsAt store))) ∧
    (∀ (store : Store) (fuel : Nat) (dry auto conf : Bool)
        (fails : String → Bool) (e : String),
        get_all_pages store fuel = Except.error e →
          main_run store fuel dry auto conf fails = Except.error e) := by
  constructor
  · intro store fuel cs hchain hfuel
    rw [get_all_pages, get_all_pages_loop_chain store none cs hchain fuel hfuel [],
      List.nil_append]
  · intro store fuel d a c f e he
    simp [main_run, he]

/-- A two-page store: the first request (cursor `None`) answers has-more
with cursor `cursor-1`; the second answers has-more false. -/
def twoPageStore : Store := fun c =>
  match c with
  | none => Except.ok ⟨[⟨some "pg-a", none, some "2024-01-01T00:00:00Z", none⟩],
      true, some "cursor-1"⟩
  | some s =>
    if s = "cursor-1" then
      Except.ok ⟨[⟨some "pg-b", none, some "2024-02-02T00:00:00Z", none⟩],
        false, none⟩
    else Except.error "bad cursor"

/-- A store whose every request fails. -/
def failingStore : Store := fun _ => Except.error "HTTPError: 503"

/-- C8 witness: on the two-page store the loop returns both pages in order;
on the failing store the whole run aborts with the fetch error. -/
theorem C8_pagination_witness :
    get_all_pages twoPageStore 2 =
      Except.ok [⟨some "pg-a", none, some "2024-01-01T00:00:00Z", none⟩,
        ⟨some "pg-b", none, some "2024-02-02T00:00:00Z", none⟩] ∧
    main_run failingStore 1 false true true (fun _ => false) =
      Except.error "HTTPError: 503" := by
  constructor
  · have hchain : Chain twoPageStore none [none, some "cursor-1"] :=
      Chain.more none ⟨[⟨some "pg-a", none, some "2024-01-01T00:00:00Z", none⟩],
          true, some "cursor-1"⟩ [some "cursor-1"] rfl rfl
        (Chain.last (some "cursor-1")
          ⟨[⟨some "pg-b", none, some "2024-02-02T00:00:00Z", none⟩], false, none⟩
          rfl rfl)
    rw [C8_pagination.1 twoPageStore 2 [none, some "cursor-1"] hchain (by decide)]
    rfl
  · exact C8_pagination.2 failingStore 1 false true true (fun _ => false)
      "HTTPError: 503" rfl

/-- C9: for every output group, keep together with remove is, as a
multiset, exactly the input records bearing the group's key, and remove has
the group's size minus one elements. -/
theorem C9_group_conservation (pages : List PageInfo) (g : DupGroup)
    (hg : g ∈ find_duplicates pages) :
    List.Perm (g.keep :: g.remove) (groupOf pages g.key) ∧
    g.remove.length + 1 = (groupOf pages g.key).length := by
  obtain ⟨_, _, hs⟩ := mem_find_duplicates pages g hg
  have hperm : List.Perm (g.keep :: g.remove) (groupOf pages g.key) := by
    rw [← hs]
    exact sortPagesDesc_perm _
  refine ⟨hperm, ?_⟩
  have hl := hperm.length_eq
  rw [List.length_cons] at hl
  omega

/-- C9 witness: group conservation on the scenario group. -/
theorem C9_group_conservation_witness :
    List.Perm (pMar :: [pFeb, pJan]) (groupOf scenarioPages "Groceries") ∧
    ([pFeb, pJan] : List PageInfo).length + 1 =
      (groupOf scenarioPages "Groceries").length :=
  C9_group_conservation scenarioPages ⟨"Groceries", pMar, [pFeb, pJan]⟩ (by decide)

/-- A two-record group in which one record lacks a creation timestamp. -/
def pNoTime : PageInfo :=
  ⟨"id-notime", "Trip", "", "", ""⟩

def pTimed : PageInfo :=
  ⟨"id-timed", "Trip", "", "2024-05-05", ""⟩

def mixedPages : List PageInfo :=
  [pNoTime, pTimed]

/-- C10: a raw record with an absent created_time projects to createdAt =
`""`; since `""` is lexicographically below every non-empty timestamp, in a
group that also holds a non-empty timestamp the kept record's timestamp is
non-empty and every empty-timestamped member lands in remove, never keep. -/
theorem C10_empty_created (pages : List PageInfo) (g : DupGroup)
    (hg : g ∈ find_duplicates pages)
    (hne : ∃ q ∈ groupOf pages g.key, q.created_time ≠ "") :
    (∀ (page : RawPage) (info : PageInfo),
        extract_page_info page = Except.ok info → page.created_time = none →
          info.created_time = "") ∧
    g.keep.created_time ≠ "" ∧
    ∀ p ∈ groupOf pages g.key, p.created_time = "" →
      (p ∈ g.remove ∧ p ≠ g.keep) := by
  have hmax := keep_ge_of_mem_group pages g hg
  obtain ⟨q, hq, hqne⟩ := hne
  have hkeep : g.keep.created_time ≠ "" := by
    intro h0
    have h2 : pyStrLe q.created_time g.keep.created_time = true := hmax q hq
    rw [h0] at h2
    exact hqne (pyStrLe_empty _ h2)
  refine ⟨?_, hkeep, ?_⟩
  · intro page info hok hct
    obtain ⟨i, props, ct, u⟩ := page
    have hct' : ct = none := hct
    subst hct'
    cases i with
    | none => cases hok
    | some pid =>
      injection hok with h
      rw [← h]
      rfl
  · intro p hp hp0
    obtain ⟨_, _, hs⟩ := mem_find_duplicates pages g hg
    have hpS : p ∈ g.keep :: g.remove := by
      rw [← hs]
      exact (sortPagesDesc_perm _).mem_iff.mpr hp
    have hpne : p ≠ g.keep := by
      intro he
      exact hkeep (he ▸ hp0)
    rcases List.mem_cons.mp hpS with he | hr
    · exact absurd he hpne
    · exact ⟨hr, hpne⟩

/-- C10 witness: the empty-timestamp record of the mixed group is removed,
and the projector defaults an absent created_time to the empty string. -/
theorem C10_empty_created_witness :
    ((⟨"Trip", pTimed, [pNoTime]⟩ : DupGroup) ∈ find_duplicates mixedPages ∧
      ∃ q ∈ groupOf mixedPages "Trip", q.created_time ≠ "") ∧
    ((∀ (page : RawPage) (info : PageInfo),
        extract_page_info page = Except.ok info → page.created_time = none →
          info.created_time = "") ∧
      pTimed.created_time ≠ "" ∧
      ∀ p ∈ groupOf mixedPages "Trip", p.created_time = "" →
        (p ∈ [pNoTime] ∧ p ≠ pTimed)) :=
  ⟨⟨by decide, by decide⟩,
   C10_empty_created mixedPages ⟨"Trip", pTimed, [pNoTime]⟩ (by decide) (by decide)⟩
